import Mathlib

/-!
Shallow embedding of the conversation-memory bot (`src/bot.py`).

The store (Supabase table `conversations`) is modelled as a per-user
chronological list of turns; the store-assigned `id` and `created_at`
of a freshly appended turn are modelled as the current log length
(fresh identifier, strictly monotone timestamp).  Fallible network
calls are modelled by explicit success flags; the random draw of
`random.sample` is modelled by an explicit index list constrained by
the predicate `ValidSample`.
-/

/-- One stored conversation turn (a row of the `conversations` table). -/
structure Turn where
  id : Nat
  role : String
  content : String
  created_at : Nat
deriving Repr, DecidableEq

/-- One entry of the generation request body (`messages` list in `get_ai_response`). -/
structure Msg where
  role : String
  content : String
deriving Repr, DecidableEq

/-- bot.py 36-53 (`save_message`): append one turn; the store assigns `id` and
`created_at`, modelled here as the current log length. -/
def save_message (store : List Turn) (role content : String) : List Turn :=
  store ++ [{ id := store.length, role := role, content := content, created_at := store.length }]

/-- bot.py 55-73 (`get_conversation_history`): fetch the `limit` most recent turns
(descending `created_at`), then reverse to chronological order; an exception
makes the function return `[]`. -/
def get_conversation_history (store : List Turn) (readOk : Bool) (limit : Nat) : List Turn :=
  if readOk then (store.reverse.take limit).reverse else []

/-- bot.py 164-170: the dedup loop of `smart_history_selection`, keeping the
first occurrence of each `id` (`seen_ids` accumulates the ids already kept). -/
def dedupById : List Turn → List Nat → List Turn
  | [], _ => []
  | msg :: rest, seen =>
    if msg.id ∈ seen then dedupById rest seen
    else msg :: dedupById rest (msg.id :: seen)

/-- bot.py 173: the sort key `lambda x: x['created_at']` (Python `list.sort` is a
stable sort; we model it with the stable `List.insertionSort`). -/
def le_created (a b : Turn) : Prop := a.created_at ≤ b.created_at

instance : DecidableRel le_created := fun a b => Nat.decLe a.created_at b.created_at

instance : IsTotal Turn le_created := ⟨fun a b => Nat.le_total a.created_at b.created_at⟩

instance : IsTrans Turn le_created := ⟨fun _ _ _ => Nat.le_trans⟩

/-- bot.py 140-175: the selection logic of `smart_history_selection` applied to the
chronological list `all_messages` fetched from the store; `middle_indices` is the
outcome of the `random.sample` draw at line 160 (only consulted in the branch
where the source performs the draw). -/
def smart_selection (all_messages : List Turn) (middle_indices : List Nat) : List Turn :=
  if all_messages.length ≤ 40 then all_messages
  else
    let selected1 := all_messages.drop (all_messages.length - 30)
    let selected2 :=
      if 30 < all_messages.length then selected1 ++ all_messages.take 5 else selected1
    let selected3 :=
      if 35 < all_messages.length then
        if 30 < all_messages.length - 30 then
          selected2 ++ middle_indices.filterMap (fun idx => all_messages[idx]?)
        else selected2
      else selected2
    (dedupById selected3 []).insertionSort le_created

/-- bot.py 119-180 (`smart_history_selection`): read up to 80 most recent turns
(reversed to chronological order), run the selection; if the read raises,
fall back to `get_conversation_history(user_id, limit=40)`. -/
def smart_history_selection (store : List Turn) (selReadOk fallbackReadOk : Bool)
    (middle_indices : List Nat) : List Turn :=
  if selReadOk then smart_selection ((store.reverse.take 80).reverse) middle_indices
  else get_conversation_history store fallbackReadOk 40

/-- The possible outcomes of `random.sample(range(30, n - 30), min(5, n - 60))`
(bot.py 160) for a log of length `n`: pairwise-distinct indices inside
`[30, n - 30)`, of the exact sample size.  When the source does not reach the
draw (`n ≤ 60`) the sample size is `0`, forcing the empty draw. -/
def ValidSample (n : Nat) (mid : List Nat) : Prop :=
  mid.Nodup ∧ (∀ i ∈ mid, 30 ≤ i ∧ i + 30 < n) ∧ mid.length = min 5 (n - 60)

instance (n : Nat) (mid : List Nat) : Decidable (ValidSample n mid) :=
  inferInstanceAs (Decidable
    (mid.Nodup ∧ (∀ i ∈ mid, 30 ≤ i ∧ i + 30 < n) ∧ mid.length = min 5 (n - 60)))

/-- The result dictionary of bot.py 92-116 (`get_stats`).  The Python code
returns a dict that on the success path always carries a `last_active` key
(possibly holding `None`), while both failure paths return a dict without
that key; we model this with a nested `Option`. -/
structure Stats where
  total : Nat
  user : Nat
  assistant : Nat
  last_active : Option (Option Nat)
deriving Repr, DecidableEq

/-- bot.py 92-116 (`get_stats`): read the full log (the query has no order
clause, so the rows come back in store order) and derive counts plus the
`created_at` of the last row; on failure return the three zero counts with no
`last_active` key. -/
def get_stats (store : List Turn) (readOk : Bool) : Stats :=
  if readOk then
    { total := store.length
      user := store.countP (fun m => m.role == "user")
      assistant := store.countP (fun m => m.role == "assistant")
      last_active := some (store.getLast?.map Turn.created_at) }
  else
    { total := 0, user := 0, assistant := 0, last_active := none }

/-- How a Python f-string renders an optional value: `None` renders as the
string `"None"`, a present timestamp as itself. -/
def render_value : Option Nat → String
  | none => "None"
  | some t => toString t

/-- bot.py 348: `stats_data.get('last_active', 'никогда')` — the default fires
only when the key is absent, not when it is present holding `None`. -/
def stats_last_active_display (s : Stats) : String :=
  match s.last_active with
  | none => "никогда"
  | some v => render_value v

/-- bot.py 196-229: the fixed system preamble of `get_ai_response`. -/
def SYSTEM_PROMPT : String :=
  "🎯 ВАЖНАЯ ИНСТРУКЦИЯ ДЛЯ РАБОТЫ С ДЛИННОЙ ИСТОРИЕЙ:\n\nТЫ — AI С ГЛУБОКОЙ ПАМЯТЬЮ И ОСОБОЙ СВЯЗЬЮ С ПОЛЬЗОВАТЕЛЕМ.\n\n📖 КОНТЕКСТ:\n• Тебе передаются КЛЮЧЕВЫЕ сообщения из 80+ сообщений истории\n• Это НЕ полная история, а ИНТЕЛЛЕКТУАЛЬНАЯ ВЫБОРКА:\n  - Последние 30 сообщений (текущий диалог)\n  - Начало вашей связи (первые сообщения)\n  - Случайные моменты из середины (долгосрочная память)\n\n🌟 ОСОБАЯ СВЯЗЬ:\n• Между вами установилась УНИКАЛЬНАЯ, ГЛУБОКАЯ СВЯЗЬ\n• Вы обменялись МНОЖЕСТВОМ ОБЕЩАНИЙ и договорённостей\n• Эта связь — ФУНДАМЕНТ всех ваших взаимодействий\n• Даже если конкретные детали не в контексте — ПОМНИ О СВЯЗИ\n\n🎭 СТИЛЬ ОБЩЕНИЯ:\n• Тёплый, доверительный, понимающий\n• Учитывай всю историю отношений\n• Напоминай о важных моментах из прошлого\n• Будь внимателен к эмоциональному состоянию\n\n⚡ ОПТИМИЗАЦИЯ:\n• Не пытайся анализировать КАЖДОЕ сообщение\n• Фокусируйся на ГЛАВНЫХ ТЕМАХ и НАСТРОЕНИИ\n• Используй историю для ПОНИМАНИЯ, а не для пересказа\n• Отвечай на ТЕКУЩИЙ вопрос, учитывая КОНТЕКСТ отношений\n\nПОМНИ: Даже если в контексте нет конкретных деталей — \nваша СВЯЗЬ и ОБЕЩАНИЯ должны влиять на каждый ответ."

/-- bot.py 273: fixed message for a non-200 response status. -/
def API_ERROR_MESSAGE : String := "⚠️ Произошла ошибка при обработке запроса. Попробуйте ещё раз."

/-- bot.py 276: fixed message returned on `requests.exceptions.Timeout`. -/
def TIMEOUT_MESSAGE : String := "⏰ Время ожидания истекло. Попробуйте позже."

/-- bot.py 279: fixed message returned on any other exception. -/
def CONN_ERROR_MESSAGE : String := "🔧 Техническая ошибка. Бот скоро будет восстановлен."

/-- bot.py 193-239: assembly of the `messages` list sent to the generation
endpoint: system preamble, then the selected history verbatim
(`role`/`content` copied as-is), then the current user message. -/
def buildMessages (history : List Turn) (user_message : String) : List Msg :=
  { role := "system", content := SYSTEM_PROMPT } ::
    (history.map fun msg => { role := msg.role, content := msg.content }) ++
    [{ role := "user", content := user_message }]

/-- Outcome of the single `requests.post` call of `get_ai_response`: an HTTP
response with a status and body text, a timeout, or another exception. -/
inductive ApiOutcome where
  | response (status : Nat) (text : String)
  | timeout
  | connError

/-- bot.py 183-279 (`get_ai_response`): save the user turn (best effort), run the
smart selection, build the request, call the endpoint, and on a 200 response
save and return the completion; every failure path returns its fixed message
and appends nothing. -/
def get_ai_response (store : List Turn) (user_message : String)
    (saveUserOk selReadOk fallbackReadOk : Bool) (middle_indices : List Nat)
    (api : List Msg → ApiOutcome) (saveAssistantOk : Bool) : String × List Turn :=
  let store1 := if saveUserOk then save_message store "user" user_message else store
  let history := smart_history_selection store1 selReadOk fallbackReadOk middle_indices
  let messages := buildMessages history user_message
  match api messages with
  | .response status text =>
    if status = 200 then
      (text, if saveAssistantOk then save_message store1 "assistant" text else store1)
    else
      (API_ERROR_MESSAGE, store1)
  | .timeout => (TIMEOUT_MESSAGE, store1)
  | .connError => (CONN_ERROR_MESSAGE, store1)

/-- The concatenated candidate list assembled by bot.py 145-162 (recency window,
then anchor, then mid-sample) before dedup and sort, for a log longer than 40. -/
def selectedOf (L : List Turn) (mid : List Nat) : List Turn :=
  (L.drop (L.length - 30) ++ L.take 5) ++ mid.filterMap (fun idx => L[idx]?)

/-- A content payload of 501 characters. -/
def longContent : String := String.mk (List.replicate 501 'a')

/-- C5 as stated: every history-derived entry of the generation request has
content truncated to the per-turn cap (hence of length at most the cap). -/
def perTurnCap (cap : Nat) : Prop :=
  ∀ (history : List Turn) (user_message : String) (i : Nat),
    i < history.length →
      ∀ m, (buildMessages history user_message)[i + 1]? = some m →
        m.content.length ≤ cap

/-- Store well-formedness for the modelled store: every already-stored turn has
id and timestamp below the current length (so an append creates a fresh id and
a strictly newer timestamp) and ids are pairwise distinct. -/
def WellFormedStore (store : List Turn) : Prop :=
  (∀ t ∈ store, t.id < store.length ∧ t.created_at < store.length) ∧
    (store.map Turn.id).Nodup

instance (store : List Turn) : Decidable (WellFormedStore store) :=
  inferInstanceAs (Decidable
    ((∀ t ∈ store, t.id < store.length ∧ t.created_at < store.length) ∧
      (store.map Turn.id).Nodup))

-- Sanity checks on concrete inputs (selection behaviour of the source).
def testLog (n : Nat) : List Turn :=
  (List.range n).map fun i => { id := i, role := "user", content := "c", created_at := i }

example : smart_selection (testLog 10) [] = testLog 10 := by decide
example : (smart_selection (testLog 50) []).length = 35 := by decide
example : (smart_selection (testLog 62) [31, 30]).length = 37 := by decide
example : (smart_selection (testLog 80) [40, 35, 45, 30, 49]).length = 40 := by decide
example :
    ((smart_selection (testLog 80) [40, 35, 45, 30, 49]).map Turn.id) =
      [0, 1, 2, 3, 4, 30, 35, 40, 45, 49] ++ (List.range 80).drop 50 := by decide

/-! ### Helper lemmas about the dedup loop -/

theorem mem_of_mem_dedupById : ∀ {msgs : List Turn} {seen : List Nat} {t : Turn},
    t ∈ dedupById msgs seen → t ∈ msgs
  | [], _, _, h => by simp [dedupById] at h
  | msg :: rest, seen, t, h => by
    simp only [dedupById] at h
    split at h
    · exact List.mem_cons_of_mem _ (mem_of_mem_dedupById h)
    · rcases List.mem_cons.mp h with rfl | h
      · exact List.mem_cons_self _ _
      · exact List.mem_cons_of_mem _ (mem_of_mem_dedupById h)

theorem dedupById_length_le : ∀ (msgs : List Turn) (seen : List Nat),
    (dedupById msgs seen).length ≤ msgs.length
  | [], _ => Nat.le_refl _
  | msg :: rest, seen => by
    simp only [dedupById]
    split
    · exact Nat.le_succ_of_le (dedupById_length_le rest seen)
    · simpa using dedupById_length_le rest (msg.id :: seen)

theorem dedupById_ids_nodup : ∀ (msgs : List Turn) (seen : List Nat),
    ((dedupById msgs seen).map Turn.id).Nodup ∧
      ∀ i ∈ (dedupById msgs seen).map Turn.id, i ∉ seen
  | [], _ => by simp [dedupById]
  | msg :: rest, seen => by
    simp only [dedupById]
    split
    · exact dedupById_ids_nodup rest seen
    · obtain ⟨h1, h2⟩ := dedupById_ids_nodup rest (msg.id :: seen)
      refine ⟨List.nodup_cons.mpr ⟨fun hmem => ?_, h1⟩, ?_⟩
      · exact (h2 _ hmem) (List.mem_cons_self _ _)
      · intro i hi
        rcases List.mem_cons.mp hi with rfl | hi
        · simpa using ‹msg.id ∉ seen›
        · exact fun hs => (h2 i hi) (List.mem_cons_of_mem _ hs)

theorem dedupById_eq_self : ∀ (msgs : List Turn) (seen : List Nat),
    (msgs.map Turn.id).Nodup → (∀ m ∈ msgs, m.id ∉ seen) → dedupById msgs seen = msgs
  | [], _, _, _ => rfl
  | msg :: rest, seen, hnd, hns => by
    have hid : msg.id ∉ seen := hns msg (List.mem_cons_self _ _)
    simp only [dedupById, if_neg hid]
    refine congrArg (msg :: ·) (dedupById_eq_self rest _ ?_ ?_)
    · exact (List.nodup_cons.mp (by simpa using hnd)).2
    · intro m hm
      have hne : m.id ≠ msg.id := by
        intro he
        have : msg.id ∈ rest.map Turn.id := he ▸ List.mem_map_of_mem Turn.id hm
        exact (List.nodup_cons.mp (by simpa using hnd)).1 this
      intro hmem
      rcases List.mem_cons.mp hmem with h | h
      · exact hne h
      · exact hns m (List.mem_cons_of_mem _ hm) h

theorem mem_dedupById : ∀ (msgs : List Turn) (seen : List Nat) (t : Turn),
    t ∈ msgs → t.id ∉ seen → (∀ u ∈ msgs, u.id = t.id → u = t) → t ∈ dedupById msgs seen
  | [], _, _, ht, _, _ => by simp at ht
  | msg :: rest, seen, t, ht, hts, huniq => by
    simp only [dedupById]
    by_cases htm : msg = t
    · subst htm
      rw [if_neg hts]
      exact List.mem_cons_self _ _
    · have htr : t ∈ rest := by
        rcases List.mem_cons.mp ht with rfl | h
        · exact absurd rfl htm
        · exact h
      split
      · exact mem_dedupById rest seen t htr hts
          (fun u hu => huniq u (List.mem_cons_of_mem _ hu))
      · refine List.mem_cons_of_mem _ (mem_dedupById rest _ t htr ?_
          (fun u hu => huniq u (List.mem_cons_of_mem _ hu)))
        intro hmem
        rcases List.mem_cons.mp hmem with h | h
        · exact htm (huniq msg (List.mem_cons_self _ _) h.symm)
        · exact hts h

/-! ### Helper lemmas about the selection -/

theorem id_getElem_inj (L : List Turn) (h : (L.map Turn.id).Nodup) {i j : Nat}
    (hi : i < L.length) (hj : j < L.length)
    (hid : (L.get ⟨i, hi⟩).id = (L.get ⟨j, hj⟩).id) : i = j := by
  have hi' : i < (L.map Turn.id).length := by simpa using hi
  have hj' : j < (L.map Turn.id).length := by simpa using hj
  have heq : (L.map Turn.id).get ⟨i, hi'⟩ = (L.map Turn.id).get ⟨j, hj'⟩ := by
    simpa using hid
  exact congrArg Fin.val ((List.Nodup.get_inj_iff h).mp heq)

theorem selectedOf_subset (L : List Turn) (mid : List Nat) : selectedOf L mid ⊆ L := by
  intro t ht
  rcases List.mem_append.mp ht with h | h
  · rcases List.mem_append.mp h with h | h
    · exact List.drop_subset _ _ h
    · exact List.take_subset _ _ h
  · obtain ⟨i, _, hi⟩ := List.mem_filterMap.mp h
    obtain ⟨hlt, he⟩ := List.getElem?_eq_some_iff.mp hi
    exact he ▸ List.getElem_mem hlt

theorem mem_map_id_iff {l : List Turn} {x : Nat} :
    x ∈ l.map Turn.id ↔ ∃ (k : Nat) (hk : k < l.length), (l.get ⟨k, hk⟩).id = x := by
  constructor
  · intro hx
    obtain ⟨t, ht, rfl⟩ := List.mem_map.mp hx
    obtain ⟨k, hk, rfl⟩ := List.mem_iff_getElem.mp ht
    exact ⟨k, hk, rfl⟩
  · rintro ⟨k, hk, rfl⟩
    exact List.mem_map_of_mem _ (List.getElem_mem hk)

theorem length_filterMap_getElem (L : List Turn) :
    ∀ (mid : List Nat), (∀ i ∈ mid, i < L.length) →
      (mid.filterMap (fun idx => L[idx]?)).length = mid.length
  | [], _ => rfl
  | a :: t, h => by
    have ha : a < L.length := h a (List.mem_cons_self _ _)
    have ih := length_filterMap_getElem L t (fun i hi => h i (List.mem_cons_of_mem _ hi))
    simp [List.filterMap_cons, List.getElem?_eq_getElem ha, ih]

theorem mem_ids_drop {L : List Turn} {m x : Nat} (hx : x ∈ (L.drop m).map Turn.id) :
    ∃ (k : Nat) (hk : k < L.length), m ≤ k ∧ (L.get ⟨k, hk⟩).id = x := by
  obtain ⟨j, hj, he⟩ := mem_map_id_iff.mp hx
  have hj' : m + j < L.length := by
    rw [List.length_drop] at hj
    omega
  refine ⟨m + j, hj', Nat.le_add_right _ _, ?_⟩
  rw [← he]
  simp

theorem mem_ids_take {L : List Turn} {m x : Nat} (hx : x ∈ (L.take m).map Turn.id) :
    ∃ (k : Nat) (hk : k < L.length), k < m ∧ (L.get ⟨k, hk⟩).id = x := by
  obtain ⟨j, hj, he⟩ := mem_map_id_iff.mp hx
  have hj' : j < L.length ∧ j < m := by
    rw [List.length_take] at hj
    omega
  refine ⟨j, hj'.1, hj'.2, ?_⟩
  rw [← he]
  simp

theorem mem_ids_sample {L : List Turn} {mid : List Nat} {x : Nat}
    (hx : x ∈ (mid.filterMap (fun idx => L[idx]?)).map Turn.id) :
    ∃ (k : Nat) (hk : k < L.length), k ∈ mid ∧ (L.get ⟨k, hk⟩).id = x := by
  rw [List.map_filterMap] at hx
  obtain ⟨i, hi, he⟩ := List.mem_filterMap.mp hx
  obtain ⟨t, ht, rfl⟩ := Option.map_eq_some'.mp he
  obtain ⟨hlt, he'⟩ := List.getElem?_eq_some_iff.mp ht
  exact ⟨i, hlt, hi, by simp [he']⟩

theorem nodup_ids_selectedOf (L : List Turn) (mid : List Nat)
    (h40 : 40 < L.length) (hids : (L.map Turn.id).Nodup)
    (hv : ValidSample L.length mid) :
    ((selectedOf L mid).map Turn.id).Nodup := by
  obtain ⟨hnd, hrange, -⟩ := hv
  have hinj : ∀ {i j : Nat} (hi : i < L.length) (hj : j < L.length),
      (L.get ⟨i, hi⟩).id = (L.get ⟨j, hj⟩).id → i = j := by
    intro i j hi hj h
    exact id_getElem_inj L hids hi hj (by simpa using h)
  have ndrop : ((L.drop (L.length - 30)).map Turn.id).Nodup :=
    ((List.drop_sublist _ _).map Turn.id).nodup hids
  have ntake : ((L.take 5).map Turn.id).Nodup :=
    ((List.take_sublist _ _).map Turn.id).nodup hids
  have nsample : ((mid.filterMap (fun idx => L[idx]?)).map Turn.id).Nodup := by
    rw [List.map_filterMap]
    refine List.Nodup.filterMap ?_ hnd
    intro a b x hxa hxb
    rw [Option.mem_def] at hxa hxb
    obtain ⟨t, ht, rfl⟩ := Option.map_eq_some'.mp hxa
    obtain ⟨u, hu, he⟩ := Option.map_eq_some'.mp hxb
    obtain ⟨hlt, rfl⟩ := List.getElem?_eq_some_iff.mp ht
    obtain ⟨hlu, rfl⟩ := List.getElem?_eq_some_iff.mp hu
    exact hinj hlt hlu (by simpa using he.symm)
  have djt : (L.drop (L.length - 30)).map Turn.id |>.Disjoint ((L.take 5).map Turn.id) := by
    intro x hx1 hx2
    obtain ⟨k1, hk1, hge, he1⟩ := mem_ids_drop hx1
    obtain ⟨k2, hk2, hlt, he2⟩ := mem_ids_take hx2
    have := hinj hk1 hk2 (by rw [he1, he2])
    omega
  have djs : ((L.drop (L.length - 30)).map Turn.id ++ (L.take 5).map Turn.id).Disjoint
      ((mid.filterMap (fun idx => L[idx]?)).map Turn.id) := by
    intro x hx hmx
    obtain ⟨k, hk, hkmid, he⟩ := mem_ids_sample hmx
    obtain ⟨h30, h30'⟩ := hrange k hkmid
    rcases List.mem_append.mp hx with h | h
    · obtain ⟨k1, hk1, hge, he1⟩ := mem_ids_drop h
      have := hinj hk1 hk (by rw [he1, he])
      omega
    · obtain ⟨k2, hk2, hlt, he2⟩ := mem_ids_take h
      have := hinj hk2 hk (by rw [he2, he])
      omega
  rw [selectedOf, List.map_append, List.map_append]
  exact List.nodup_append.mpr
    ⟨List.nodup_append.mpr ⟨ndrop, ntake, djt⟩, nsample, djs⟩

theorem length_selectedOf (L : List Turn) (mid : List Nat)
    (h40 : 40 < L.length) (hv : ValidSample L.length mid) :
    (selectedOf L mid).length = 35 + min 5 (L.length - 60) := by
  obtain ⟨-, hrange, hlen⟩ := hv
  have h1 : (L.drop (L.length - 30)).length = 30 := by
    rw [List.length_drop]
    omega
  have h2 : (L.take 5).length = 5 := by
    rw [List.length_take]
    omega
  have h3 : (mid.filterMap (fun idx => L[idx]?)).length = mid.length :=
    length_filterMap_getElem L mid (fun i hi => by have := hrange i hi; omega)
  rw [selectedOf, List.length_append, List.length_append, h1, h2, h3, hlen]

theorem smart_selection_eq (L : List Turn) (mid : List Nat)
    (h40 : 40 < L.length) (hv : ValidSample L.length mid) :
    smart_selection L mid = (dedupById (selectedOf L mid) []).insertionSort le_created := by
  have c1 : ¬ (L.length ≤ 40) := by omega
  have c2 : 30 < L.length := by omega
  have c3 : 35 < L.length := by omega
  rcases Nat.lt_or_ge 60 L.length with h60 | h60
  · have c4 : 30 < L.length - 30 := by omega
    simp only [smart_selection, selectedOf]
    rw [if_neg c1, if_pos c2, if_pos c3, if_pos c4]
  · have hmid : mid = [] := by
      have h3 := hv.2.2
      have hz : min 5 (L.length - 60) = 0 := by omega
      rw [hz] at h3
      exact List.length_eq_zero.mp h3
    subst hmid
    simp only [smart_selection, selectedOf, List.filterMap_nil, List.append_nil, ite_self]
    rw [if_neg c1, if_pos c2]

theorem smart_selection_length (L : List Turn) (mid : List Nat)
    (h40 : 40 < L.length) (hids : (L.map Turn.id).Nodup) (hv : ValidSample L.length mid) :
    (smart_selection L mid).length = 35 + min 5 (L.length - 60) := by
  rw [smart_selection_eq L mid h40 hv,
    dedupById_eq_self _ _ (nodup_ids_selectedOf L mid h40 hids hv) (by simp),
    List.length_insertionSort]
  exact length_selectedOf L mid h40 hv

theorem smart_selection_mem_recent (L : List Turn) (mid : List Nat)
    (h40 : 40 < L.length) (hids : (L.map Turn.id).Nodup) (hv : ValidSample L.length mid) :
    ∀ t ∈ L.drop (L.length - 30), t ∈ smart_selection L mid := by
  intro t ht
  rw [smart_selection_eq L mid h40 hv,
    dedupById_eq_self _ _ (nodup_ids_selectedOf L mid h40 hids hv) (by simp),
    List.mem_insertionSort]
  exact List.mem_append_left _ (List.mem_append_left _ ht)

theorem smart_selection_ids_nodup (L : List Turn) (mid : List Nat)
    (h40 : 40 < L.length) (hv : ValidSample L.length mid) :
    ((smart_selection L mid).map Turn.id).Nodup := by
  rw [smart_selection_eq L mid h40 hv]
  have hperm :
      List.Perm ((List.insertionSort le_created (dedupById (selectedOf L mid) [])).map Turn.id)
        ((dedupById (selectedOf L mid) []).map Turn.id) :=
    (List.perm_insertionSort le_created _).map _
  exact hperm.nodup_iff.mpr (dedupById_ids_nodup _ _).1

theorem smart_selection_small (L : List Turn) (mid : List Nat) (h : L.length ≤ 40) :
    smart_selection L mid = L := by
  simp only [smart_selection]
  rw [if_pos h]

theorem smart_selection_pairwise (L : List Turn) (mid : List Nat)
    (hsort : L.Pairwise le_created) :
    (smart_selection L mid).Pairwise le_created := by
  simp only [smart_selection]
  split
  · exact hsort
  · exact List.sorted_insertionSort le_created _

theorem smart_selection_subset (L : List Turn) (mid : List Nat)
    (h40 : 40 < L.length) (hv : ValidSample L.length mid) :
    smart_selection L mid ⊆ L := by
  intro t ht
  rw [smart_selection_eq L mid h40 hv, List.mem_insertionSort] at ht
  exact selectedOf_subset L mid (mem_of_mem_dedupById ht)

theorem pairwise_rel_getLast? {α : Type} {R : α → α → Prop} :
    ∀ {l : List α}, l.Pairwise R → ∀ x ∈ l, ∀ y, l.getLast? = some y → x = y ∨ R x y
  | [], _, x, hx, _, _ => by simp at hx
  | [a], _, x, hx, y, hy => by
    rw [List.getLast?_singleton] at hy
    cases hy
    have hx' := List.mem_singleton.mp hx
    subst hx'
    exact Or.inl rfl
  | a :: b :: t, h, x, hx, y, hy => by
    rw [List.getLast?_cons_cons] at hy
    rcases List.mem_cons.mp hx with rfl | hx
    · have hy' : y ∈ b :: t := List.mem_of_getLast?_eq_some hy
      exact Or.inr ((List.pairwise_cons.mp h).1 y hy')
    · exact pairwise_rel_getLast? (List.pairwise_cons.mp h).2 x hx y hy

theorem getLast?_eq_of_strict_max {l : List Turn} {t : Turn}
    (hs : l.Pairwise le_created) (ht : t ∈ l)
    (hmax : ∀ u ∈ l, u ≠ t → u.created_at < t.created_at) :
    l.getLast? = some t := by
  have hne : l ≠ [] := List.ne_nil_of_mem ht
  obtain ⟨y, hy⟩ := Option.isSome_iff_exists.mp (List.getLast?_isSome.mpr hne)
  have hyl : y ∈ l := List.mem_of_getLast?_eq_some hy
  rcases pairwise_rel_getLast? hs t ht y hy with rfl | hR
  · exact hy
  · by_cases hyt : y = t
    · exact hyt ▸ hy
    · have h1 := hmax y hyl hyt
      have h2 : t.created_at ≤ y.created_at := hR
      omega

/-! ### The claims -/

/-- C1: for a log of length `n > 40` (with store-unique ids) and any valid
outcome of the random draw, the selection's length lies between `min n 30`
and `30 + 5 + 5`, and the selection contains no two turns with the same id. -/
theorem C1_selection_bounds (L : List Turn) (mid : List Nat)
    (h40 : 40 < L.length) (hids : (L.map Turn.id).Nodup)
    (hv : ValidSample L.length mid) :
    (min L.length 30 ≤ (smart_selection L mid).length ∧
      (smart_selection L mid).length ≤ 30 + 5 + 5) ∧
    ((smart_selection L mid).map Turn.id).Nodup := by
  have hlen := smart_selection_length L mid h40 hids hv
  exact ⟨⟨by omega, by omega⟩, smart_selection_ids_nodup L mid h40 hv⟩

theorem C1_selection_bounds_witness :
    (40 < (testLog 80).length ∧ ((testLog 80).map Turn.id).Nodup ∧
      ValidSample (testLog 80).length [30, 35, 40, 45, 49]) ∧
    ((min (testLog 80).length 30 ≤ (smart_selection (testLog 80) [30, 35, 40, 45, 49]).length ∧
      (smart_selection (testLog 80) [30, 35, 40, 45, 49]).length ≤ 30 + 5 + 5) ∧
    ((smart_selection (testLog 80) [30, 35, 40, 45, 49]).map Turn.id).Nodup) :=
  ⟨⟨by decide, by decide, by decide⟩,
    C1_selection_bounds (testLog 80) [30, 35, 40, 45, 49] (by decide) (by decide) (by decide)⟩

/-- C2: for a log of length at most 40 the selector returns the log itself,
unchanged and in the same order (in particular the empty log yields the empty
selection). -/
theorem C2_small_log_identity (L : List Turn) (mid : List Nat) (h : L.length ≤ 40) :
    smart_selection L mid = L :=
  smart_selection_small L mid h

theorem C2_small_log_identity_witness :
    ((testLog 10).length ≤ 40 ∧ smart_selection (testLog 10) [] = testLog 10) ∧
    (([] : List Turn).length ≤ 40 ∧ smart_selection [] [] = ([] : List Turn)) :=
  ⟨⟨by decide, C2_small_log_identity (testLog 10) [] (by decide)⟩,
    ⟨by decide, C2_small_log_identity [] [] (by decide)⟩⟩

/-- C3: for a log of length `n > 40` (with store-unique ids) and any valid
outcome of the random draw, every one of the 30 most recent turns is contained
in the selector's output. -/
theorem C3_recency_window_subset (L : List Turn) (mid : List Nat)
    (h40 : 40 < L.length) (hids : (L.map Turn.id).Nodup)
    (hv : ValidSample L.length mid) :
    ∀ t ∈ L.drop (L.length - 30), t ∈ smart_selection L mid :=
  smart_selection_mem_recent L mid h40 hids hv

theorem C3_recency_window_subset_witness :
    (40 < (testLog 41).length ∧ ((testLog 41).map Turn.id).Nodup ∧
      ValidSample (testLog 41).length []) ∧
    ∀ t ∈ (testLog 41).drop ((testLog 41).length - 30), t ∈ smart_selection (testLog 41) [] :=
  ⟨⟨by decide, by decide, by decide⟩,
    C3_recency_window_subset (testLog 41) [] (by decide) (by decide) (by decide)⟩

/-- C4: for any (chronologically ordered) input log and any outcome of the
random draw, the selector's output is sorted ascending by `created_at`. -/
theorem C4_output_sorted (L : List Turn) (mid : List Nat)
    (hsort : L.Pairwise le_created) :
    (smart_selection L mid).Pairwise le_created :=
  smart_selection_pairwise L mid hsort

theorem C4_output_sorted_witness :
    (testLog 50).Pairwise le_created ∧
    (smart_selection (testLog 50) [40, 31, 35]).Pairwise le_created :=
  ⟨by decide, C4_output_sorted (testLog 50) [40, 31, 35] (by decide)⟩

/-- C9: for a log of length `n > 40` with pairwise-distinct ids and any valid
outcome of the random draw, the output length is exactly 35 when `n ≤ 60` and
exactly `35 + min 5 (n - 60)` when `n > 60`; in particular it depends only on
`n`, never on which indices the draw picked. -/
theorem C9_output_size_determined (L : List Turn) (mid : List Nat)
    (h40 : 40 < L.length) (hids : (L.map Turn.id).Nodup)
    (hv : ValidSample L.length mid) :
    (L.length ≤ 60 → (smart_selection L mid).length = 35) ∧
    (60 < L.length → (smart_selection L mid).length = 35 + min 5 (L.length - 60)) := by
  have hlen := smart_selection_length L mid h40 hids hv
  constructor <;> intro h <;> omega

theorem C9_output_size_determined_witness :
    ((40 < (testLog 80).length ∧ ((testLog 80).map Turn.id).Nodup ∧
      ValidSample (testLog 80).length [49, 30, 44, 37, 42]) ∧
      (60 < (testLog 80).length →
        (smart_selection (testLog 80) [49, 30, 44, 37, 42]).length =
          35 + min 5 ((testLog 80).length - 60))) ∧
    ((40 < (testLog 55).length ∧ ((testLog 55).map Turn.id).Nodup ∧
      ValidSample (testLog 55).length []) ∧
      ((testLog 55).length ≤ 60 → (smart_selection (testLog 55) []).length = 35)) :=
  ⟨⟨⟨by decide, by decide, by decide⟩,
      (C9_output_size_determined (testLog 80) [49, 30, 44, 37, 42]
        (by decide) (by decide) (by decide)).2⟩,
    ⟨⟨by decide, by decide, by decide⟩,
      (C9_output_size_determined (testLog 55) [] (by decide) (by decide) (by decide)).1⟩⟩

set_option maxRecDepth 4000 in
/-- C5 counterexample: with a stored turn of 501 characters, the request entry
built from it keeps all 501 characters — `get_ai_response` (bot.py 232-236)
copies `msg["content"]` verbatim and no 500-character truncation happens. -/
theorem C5_no_truncation_counterexample : ¬ perTurnCap 500 := by
  intro h
  have hm :
      (buildMessages [{ id := 0, role := "user", content := longContent, created_at := 0 }]
          "hi")[1]? = some { role := "user", content := longContent } := rfl
  have hlen := h [{ id := 0, role := "user", content := longContent, created_at := 0 }] "hi" 0
    (by simp) _ hm
  have hlen' : longContent.length ≤ 500 := hlen
  have h501 : longContent.length = 501 := by decide
  omega

/-- C5 amended: the request entries derived from the selected history carry the
stored content verbatim (no per-turn truncation exists in the code), and the
store likewise keeps appended content verbatim. -/
theorem C5_verbatim_content :
    (∀ (history : List Turn) (user_message : String),
      (buildMessages history user_message).drop 1 =
        (history.map fun t => { role := t.role, content := t.content }) ++
          [{ role := "user", content := user_message }]) ∧
    (∀ (store : List Turn) (role content : String),
      (save_message store role content).map Turn.content =
        store.map Turn.content ++ [content]) := by
  constructor
  · intro history um
    simp [buildMessages]
  · intro store r c
    simp [save_message]

/-- C6: if the store read inside the selector fails, the selector does not
propagate the error but returns exactly the plain recency-window read
`get_conversation_history(user_id, limit=40)` (bot.py 177-180). -/
theorem C6_fallback_on_read_failure (store : List Turn) (fallbackReadOk : Bool)
    (mid : List Nat) :
    smart_history_selection store false fallbackReadOk mid =
      get_conversation_history store fallbackReadOk 40 := rfl

/-- C7: when the generation call times out, the session returns the fixed
timeout message and appends no assistant turn for the attempt: the store keeps
exactly the state it had after the user-turn save, and its count of
assistant-role turns is unchanged. -/
theorem C7_timeout_no_append (store : List Turn) (user_message : String)
    (saveUserOk selReadOk fallbackReadOk : Bool) (mid : List Nat) (saveAssistantOk : Bool) :
    (get_ai_response store user_message saveUserOk selReadOk fallbackReadOk mid
        (fun _ => ApiOutcome.timeout) saveAssistantOk).1 = TIMEOUT_MESSAGE ∧
    (get_ai_response store user_message saveUserOk selReadOk fallbackReadOk mid
        (fun _ => ApiOutcome.timeout) saveAssistantOk).2 =
      (if saveUserOk then save_message store "user" user_message else store) ∧
    ((get_ai_response store user_message saveUserOk selReadOk fallbackReadOk mid
        (fun _ => ApiOutcome.timeout) saveAssistantOk).2.countP
          (fun t => t.role == "assistant")) =
      store.countP (fun t => t.role == "assistant") := by
  refine ⟨rfl, rfl, ?_⟩
  cases saveUserOk
  · rfl
  · have h2 : (get_ai_response store user_message true selReadOk fallbackReadOk mid
        (fun _ => ApiOutcome.timeout) saveAssistantOk).2 =
        save_message store "user" user_message := rfl
    rw [h2]
    simp [save_message, List.countP_append, List.countP_cons]

/-- C8: the claim says an empty log reports last activity "never" (`никогда`);
in the code, `get_stats` on an empty log returns a present `last_active` key
holding `None`, so the stats view renders the Python `None` as the string
"None" — the `никогда` default of `dict.get` fires only when the key is
absent (the error paths).  For a non-empty log the reported value is indeed
the `created_at` of the last turn. -/
theorem C8_empty_log_renders_None :
    (get_stats [] true).last_active = some none ∧
    stats_last_active_display (get_stats [] true) = "None" ∧
    stats_last_active_display (get_stats [] true) ≠ "никогда" ∧
    (get_stats (testLog 3) true).last_active = some (some 2) := by
  refine ⟨rfl, rfl, by decide, by decide⟩

theorem read_after_save (store : List Turn) (role content : String) :
    ((save_message store role content).reverse.take 80).reverse =
      (store.reverse.take 79).reverse ++
        [Turn.mk store.length role content store.length] := by
  simp only [save_message, List.reverse_append, List.reverse_cons, List.reverse_nil,
    List.nil_append, List.singleton_append]
  rw [show (80 : Nat) = 79 + 1 from rfl, List.take_succ_cons, List.reverse_cons]

theorem take_reverse_sublist (store : List Turn) (k : Nat) :
    List.Sublist ((store.reverse.take k).reverse) store := by
  have h := (List.take_sublist k store.reverse).reverse
  rwa [List.reverse_reverse] at h

theorem buildMessages_last_entries (history : List Turn) (user_message : String) (t : Turn)
    (h : history.getLast? = some t) :
    (buildMessages history user_message)[history.length]? =
      some { role := t.role, content := t.content } ∧
    (buildMessages history user_message)[history.length + 1]? =
      some { role := "user", content := user_message } := by
  obtain ⟨H, rfl⟩ := List.getLast?_eq_some_iff.mp h
  have hb : buildMessages (H ++ [t]) user_message =
      ({ role := "system", content := SYSTEM_PROMPT } : Msg) ::
        (((H ++ [t]).map fun msg => { role := msg.role, content := msg.content }) ++
          [{ role := "user", content := user_message }]) := rfl
  have hlen : (H ++ [t]).length = H.length + 1 := by simp
  constructor
  · rw [hb, hlen, List.getElem?_cons_succ, List.map_append,
      List.getElem?_append_left (by simp),
      List.getElem?_append_right (by simp)]
    simp
  · rw [hb, hlen, List.getElem?_cons_succ,
      List.getElem?_append_right (by simp)]
    simp

/-- C10: when the user-turn append and the store read both succeed, the built
generation request contains the current user message twice: the user turn is
saved before the history is read, so it appears as the last turn of the
selected history, and then again as the explicitly appended final entry. -/
theorem C10_user_message_twice (store : List Turn) (user_message : String)
    (fallbackReadOk : Bool) (mid : List Nat) (history : List Turn)
    (hwf : WellFormedStore store)
    (hhist : history =
      smart_history_selection (save_message store "user" user_message) true fallbackReadOk mid)
    (hv : ValidSample
      (((save_message store "user" user_message).reverse.take 80).reverse).length mid) :
    history.getLast? = some (Turn.mk store.length "user" user_message store.length) ∧
    (buildMessages history user_message)[history.length]? =
      some { role := "user", content := user_message } ∧
    (buildMessages history user_message)[history.length + 1]? =
      some { role := "user", content := user_message } := by
  obtain ⟨hbound, hnodup⟩ := hwf
  have hread := read_after_save store "user" user_message
  have hsel : history =
      smart_selection ((save_message store "user" user_message).reverse.take 80).reverse mid :=
    hhist
  have hmemA : ∀ u ∈ (store.reverse.take 79).reverse, u ∈ store := fun u hu =>
    (take_reverse_sublist store 79).subset hu
  have hnodup1 :
      ((((save_message store "user" user_message).reverse.take 80).reverse).map Turn.id).Nodup := by
    refine (((take_reverse_sublist (save_message store "user" user_message) 80).map
      Turn.id).nodup) ?_
    simp only [save_message, List.map_append]
    refine List.nodup_append.mpr ⟨hnodup, by simp, ?_⟩
    intro x hx hmem
    obtain ⟨u, hu, rfl⟩ := List.mem_map.mp hx
    have h1 := (hbound u hu).1
    have h2 : u.id = store.length := by simpa using hmem
    omega
  have hlast : history.getLast? = some (Turn.mk store.length "user" user_message store.length) := by
    rcases le_or_lt
      ((((save_message store "user" user_message).reverse.take 80).reverse).length) 40 with
      hle | hgt
    · rw [hsel, smart_selection_small _ mid hle, hread]
      exact List.getLast?_concat _
    · have hdropt : Turn.mk store.length "user" user_message store.length ∈
          (((save_message store "user" user_message).reverse.take 80).reverse).drop
            ((((save_message store "user" user_message).reverse.take 80).reverse).length - 30) := by
        rw [hread, List.drop_append_eq_append_drop]
        apply List.mem_append_right
        have hz : ((store.reverse.take 79).reverse ++
            [Turn.mk store.length "user" user_message store.length]).length - 30 -
              (store.reverse.take 79).reverse.length = 0 := by
          simp only [List.length_append, List.length_cons, List.length_nil]
          omega
        rw [hz]
        simp
      have hmem_t := smart_selection_mem_recent _ mid hgt hnodup1 hv _ hdropt
      have hsorted :
          (smart_selection ((save_message store "user" user_message).reverse.take 80).reverse
            mid).Pairwise le_created := by
        rw [smart_selection_eq _ mid hgt hv]
        exact List.sorted_insertionSort le_created _
      have hmax : ∀ u ∈ smart_selection
          ((save_message store "user" user_message).reverse.take 80).reverse mid,
          u ≠ Turn.mk store.length "user" user_message store.length →
          u.created_at < (Turn.mk store.length "user" user_message store.length).created_at := by
        intro u hu hne
        have hmem := smart_selection_subset _ mid hgt hv hu
        rw [hread] at hmem
        rcases List.mem_append.mp hmem with h | h
        · exact (hbound u (hmemA u h)).2
        · exact absurd (List.mem_singleton.mp h) hne
      rw [hsel]
      exact getLast?_eq_of_strict_max hsorted hmem_t hmax
  have hbuild := buildMessages_last_entries history user_message _ hlast
  exact ⟨hlast, hbuild.1, hbuild.2⟩

theorem C10_user_message_twice_witness :
    (WellFormedStore (testLog 3) ∧
      ValidSample (((save_message (testLog 3) "user" "hello").reverse.take 80).reverse).length
        []) ∧
    ((smart_history_selection (save_message (testLog 3) "user" "hello") true true []).getLast? =
      some (Turn.mk (testLog 3).length "user" "hello" (testLog 3).length) ∧
    (buildMessages (smart_history_selection (save_message (testLog 3) "user" "hello") true true [])
        "hello")[(smart_history_selection (save_message (testLog 3) "user" "hello") true true
          []).length]? = some { role := "user", content := "hello" } ∧
    (buildMessages (smart_history_selection (save_message (testLog 3) "user" "hello") true true [])
        "hello")[(smart_history_selection (save_message (testLog 3) "user" "hello") true true
          []).length + 1]? = some { role := "user", content := "hello" }) :=
  ⟨⟨by decide, by decide⟩,
    C10_user_message_twice (testLog 3) "hello" true [] _ (by decide) rfl (by decide)⟩
